import Mathlib

/-!
Verification of the Word Up core (guess evaluator, game-session state
machine, and daily-word selection) against its specification.

The JavaScript source (`src/game.js`, `src/daily-word.js`) is embedded
shallowly: JS numbers are modelled as exact `Int`/`Rat` values (bitwise
operations take an explicit 32-bit wrap), mutable fields become explicit
state passing, and the word dictionaries — static data assets consumed by
the core — are parameters.  `getCurrentGuess`, overridden in `main.js` to
read the active grid row maintained by the UI, is modelled by carrying that
row buffer (`rowLetters`) in the session state, updated exactly where the
UI places and clears letters.
-/

namespace WordUp

/-- The per-letter feedback classification, plus `unused` for the keyboard
hint map (`'unused' | 'absent' | 'present' | 'correct'` in the source). -/
inductive Verdict where
  | unused
  | absent
  | present
  | correct
deriving DecidableEq, Repr

/-- ASCII `toUpperCase` on a single character, as applied by the source via
`String.prototype.toUpperCase` to A–Z words. -/
def toUpperChar (c : Char) : Char :=
  if 97 ≤ c.toNat ∧ c.toNat ≤ 122 then Char.ofNat (c.toNat - 32) else c

/-- `c` is an uppercase ASCII letter A–Z. -/
def isUpperAZ (c : Char) : Prop := 65 ≤ c.toNat ∧ c.toNat ≤ 90

instance (c : Char) : Decidable (isUpperAZ c) := by
  unfold isUpperAZ; infer_instance

/-- Decrement the tracked count of letter `ch` in the mutable count map
(`targetCounts[letter]--` in `validateGuess`). -/
def decCount (counts : Char → Int) (ch : Char) : Char → Int :=
  fun x => if x = ch then counts ch - 1 else counts x

/-- The initial `targetCounts` map of `validateGuess`: occurrences of each
letter in the target (0 for letters not present, matching the JS
`undefined`-as-falsy reads). -/
def initialCounts (target : List Char) : Char → Int :=
  fun ch => (target.count ch : Int)

/-- First pass of `validateGuess`: mark exact matches `correct` (others
`absent`, the array's fill value) and decrement the matched letter's count. -/
def markCorrect : List Char → List Char → (Char → Int) → List Verdict × (Char → Int)
  | g :: gs, t :: ts, counts =>
    if g = t then
      let r := markCorrect gs ts (decCount counts g)
      (Verdict.correct :: r.1, r.2)
    else
      let r := markCorrect gs ts counts
      (Verdict.absent :: r.1, r.2)
  | _, _, counts => ([], counts)

/-- Second pass of `validateGuess`: upgrade a still-`absent` position to
`present` while the guessed letter's remaining count is positive. -/
def markPresent : List Char → List Verdict → (Char → Int) → List Verdict
  | g :: gs, v :: vs, counts =>
    if v = Verdict.absent ∧ counts g > 0 then
      Verdict.present :: markPresent gs vs (decCount counts g)
    else
      v :: markPresent gs vs counts
  | _, _, _ => []

/-- `GameLogic.validateGuess`: per-position verdicts of `guess` against
`targetWord`, two passes over uppercased copies. -/
def validateGuess (targetWord guess : List Char) : List Verdict :=
  let target := targetWord.map toUpperChar
  let guessArray := guess.map toUpperChar
  let p1 := markCorrect guessArray target (initialCounts target)
  markPresent guessArray p1.1 p1.2

/-- `result.isWin` / the win condition check: every verdict is `correct`. -/
def isWinStates (states : List Verdict) : Bool :=
  states.all (fun s => s = Verdict.correct)

/-- Number of guess positions holding letter `L` whose verdict is `correct`
or `present` — the positions credited against the target's budget for
`L`. -/
def creditedCount (guess : List Char) (out : List Verdict) (L : Char) : Nat :=
  (guess.zip out).countP
    (fun p => decide (p.1 = L ∧ (p.2 = Verdict.correct ∨ p.2 = Verdict.present)))

/-- Number of guess positions holding letter `L` whose verdict is
`correct`. -/
def corrCount (guess : List Char) (out : List Verdict) (L : Char) : Nat :=
  (guess.zip out).countP (fun p => decide (p.1 = L ∧ p.2 = Verdict.correct))

/-- Number of guess positions holding letter `L` whose verdict is
`present`. -/
def presCount (guess : List Char) (out : List Verdict) (L : Char) : Nat :=
  (guess.zip out).countP (fun p => decide (p.1 = L ∧ p.2 = Verdict.present))

/-- Number of positions where guess and target both hold letter `L` (the
exact matches of `L`). -/
def exactMatches (g t : List Char) (L : Char) : Nat :=
  (g.zip t).countP (fun p => decide (p.1 = L ∧ p.2 = L))

/-- `this.gameState`: `'playing' | 'won' | 'lost'`. -/
inductive GState where
  | playing
  | won
  | lost
deriving DecidableEq, Repr

/-- The mutable per-session state of `GameLogic`, together with the active
grid-row buffer the UI maintains and `getCurrentGuess` reads back. -/
structure Session where
  targetWord : List Char
  currentRow : Int
  currentCol : Int
  gameState : GState
  guesses : List (List Char × List Verdict)
  letterStates : Char → Verdict
  rowLetters : List Char

/-- `this.maxRows = 6`. -/
def maxRows : Int := 6

/-- `this.maxCols = 5`. -/
def maxCols : Int := 5

/-- The structured result objects returned by `processKeyPress` and its
helpers: the six `success: false` reason codes, and the `success: true`
actions with the fields they report. -/
inductive Outcome where
  | gameOver
  | invalidKey
  | rowFull
  | nothingToDelete
  | rowIncomplete (row : Int)
  | wordNotRecognized (row : Int)
  | addLetterOk (letter : Char) (row col : Int)
  | deleteLetterOk (row col : Int)
  | winGame (row : Int) (letters : List Char) (states : List Verdict) (guessCount : Int)
  | loseGame (row : Int) (letters : List Char) (states : List Verdict) (targetWord : List Char)
  | continueGame (row : Int) (letters : List Char) (states : List Verdict)
deriving DecidableEq, Repr

/-- Whether an outcome is one of the `success: false` results. -/
def Outcome.isFailure : Outcome → Bool
  | .gameOver => true
  | .invalidKey => true
  | .rowFull => true
  | .nothingToDelete => true
  | .rowIncomplete _ => true
  | .wordNotRecognized _ => true
  | _ => false

/-- `GameLogic.addLetter`: place a letter at the cursor (the UI writes it
into the grid row) and post-increment `currentCol`; fails with `Row is
full` at column `maxCols`. -/
def addLetter (s : Session) (letter : Char) : Outcome × Session :=
  if s.currentCol ≥ maxCols then (.rowFull, s)
  else
    (.addLetterOk letter s.currentRow s.currentCol,
     { s with currentCol := s.currentCol + 1, rowLetters := s.rowLetters ++ [letter] })

/-- `GameLogic.deleteLetter`: decrement `currentCol` and clear that cell of
the grid row; fails with `Nothing to delete` at column 0. -/
def deleteLetter (s : Session) : Outcome × Session :=
  if s.currentCol ≤ 0 then (.nothingToDelete, s)
  else
    (.deleteLetterOk s.currentRow (s.currentCol - 1),
     { s with currentCol := s.currentCol - 1, rowLetters := s.rowLetters.dropLast })

/-- The `statePriority` table of `updateLetterStates`:
`unused 0, absent 1, present 2, correct 3`. -/
def statePriority : Verdict → Nat
  | .unused => 0
  | .absent => 1
  | .present => 2
  | .correct => 3

/-- One step of `updateLetterStates`: upgrade the keyboard hint for one
guessed letter when the new verdict has strictly higher priority. -/
def upgradeHint (ls : Char → Verdict) (p : Char × Verdict) : Char → Verdict :=
  if statePriority p.2 > statePriority (ls p.1) then
    fun x => if x = p.1 then p.2 else ls x
  else ls

/-- `GameLogic.updateLetterStates`: fold the upgrade over the guess's
letters paired with their verdicts. -/
def updateLetterStates (ls : Char → Verdict) (guess : List Char) (states : List Verdict) :
    Char → Verdict :=
  (guess.zip states).foldl upgradeHint ls

/-- `GameLogic.isValidWord`: length must be 5 and the uppercased word must
be in the dictionary (`WORDS.includes`, resp. answers ∪ valid guesses). -/
def isValidWord (words : List (List Char)) (word : List Char) : Bool :=
  if word.length ≠ 5 then false else words.contains (word.map toUpperChar)

/-- `GameLogic.submitGuess`: reject a short row (`Not enough letters`) or an
unrecognized word (`Not in word list`) without mutation; otherwise record
the evaluated guess, upgrade keyboard hints, and take the win / lose /
continue branch.  `getCurrentGuess` (as overridden in `main.js`) joins and
uppercases the active grid row's letters. -/
def submitGuess (words : List (List Char)) (s : Session) : Outcome × Session :=
  if s.currentCol < maxCols then (.rowIncomplete s.currentRow, s)
  else
    let guess := s.rowLetters.map toUpperChar
    if ¬ isValidWord words guess then (.wordNotRecognized s.currentRow, s)
    else
      let states := validateGuess s.targetWord guess
      let s1 := { s with
        guesses := s.guesses ++ [(guess, states)],
        letterStates := updateLetterStates s.letterStates guess states }
      if isWinStates states then
        (.winGame s.currentRow guess states (s.currentRow + 1), { s1 with gameState := .won })
      else
        let s2 := { s1 with currentRow := s1.currentRow + 1, currentCol := 0, rowLetters := [] }
        if s2.currentRow ≥ maxRows then
          (.loseGame (s2.currentRow - 1) guess states s.targetWord,
           { s2 with gameState := .lost })
        else
          (.continueGame (s2.currentRow - 1) guess states, s2)

/-- `GameLogic.processKeyPress`: fail with `Game is over` outside `playing`;
dispatch `ENTER` / `BACKSPACE` / a single A–Z letter; anything else fails
with `Invalid key`. -/
def processKeyPress (words : List (List Char)) (s : Session) (key : String) :
    Outcome × Session :=
  if s.gameState ≠ GState.playing then (.gameOver, s)
  else if key = "ENTER" then submitGuess words s
  else if key = "BACKSPACE" then deleteLetter s
  else
    match key.data with
    | [c] => if isUpperAZ c then addLetter s c else (.invalidKey, s)
    | _ => (.invalidKey, s)

/-- `GameLogic.startNewGame`: fresh cursor, `playing`, empty guess history,
every letter's keyboard hint `unused`, empty grid. -/
def startNewGame (target : List Char) : Session :=
  { targetWord := target
    currentRow := 0
    currentCol := 0
    gameState := .playing
    guesses := []
    letterStates := fun _ => .unused
    rowLetters := [] }

/-- Feed a sequence of key presses to the state machine, keeping only the
evolving session state. -/
def runKeys (words : List (List Char)) (s : Session) (keys : List String) : Session :=
  keys.foldl (fun st k => (processKeyPress words st k).2) s

/-- The cursor invariant the state machine actually maintains: the column
stays in `[0, 5]`, the row stays in `[0, 6]`, and the row can only reach 6
once the game has left `playing`. -/
def SessionInv (s : Session) : Prop :=
  0 ≤ s.currentCol ∧ s.currentCol ≤ 5 ∧ 0 ≤ s.currentRow ∧ s.currentRow ≤ 6 ∧
    (s.gameState = GState.playing → s.currentRow ≤ 5)

/-! Daily-word selection (`src/daily-word.js`).  JS numbers are modelled
exactly: bitwise operations (`<<`, `&`) coerce to signed 32-bit integers,
here an explicit wrap into `[-2^31, 2^31)`; the remaining arithmetic is
exact over `Int`/`Rat`. -/

/-- Signed 32-bit coercion applied by JS bitwise operators (`ToInt32`). -/
def toInt32 (x : Int) : Int :=
  let r := x % 4294967296
  if r < 2147483648 then r else r - 4294967296

/-- `SEED_SALT = 'WORDUP_DAILY_2024'`. -/
def SEED_SALT : String := "WORDUP_DAILY_2024"

/-- One iteration of `createSeed`'s loop:
`hash = ((hash << 5) - hash) + char; hash = hash & hash`. -/
def hashStep (h : Int) (c : Char) : Int :=
  toInt32 (toInt32 (h * 32) - h + c.toNat)

/-- `DailyWordGenerator.createSeed`: rolling hash of
`` `${SEED_SALT}_${dayNumber}` ``, made non-negative with `Math.abs`. -/
def createSeed (dayNumber : Int) : Int :=
  let combined := SEED_SALT ++ "_" ++ toString dayNumber
  |(combined.data.foldl hashStep 0)|

/-- The seed normalization in `seededRandom`:
`Math.abs(Math.floor(seed)) || 1`. -/
def normalizedSeed (seed : ℚ) : Int :=
  if |Int.floor seed| = 0 then 1 else |Int.floor seed|

/-- Round-to-nearest-even of a non-negative integer to a multiple of `2^e`
— the IEEE-754 rounding step for a binary64 value whose unit in the last
place is `2^e`. -/
def roundN (x : Int) (e : Nat) : Int :=
  let u : Int := 2 ^ e
  let q := x / u
  let r := x % u
  if 2 * r < u then q * u
  else if 2 * r > u then (q + 1) * u
  else if q % 2 = 0 then q * u else (q + 1) * u

/-- Binary64 (JS number) rounding of a non-negative integer-valued result:
exact below `2^53`, otherwise round-to-nearest-even keeping the leading 53
bits.  Modelled for magnitudes below `2^62`, which covers every product
`1103515245 * n + 12345` arising from a 32-bit-normalized seed; larger
values are left as-is. -/
def fl64 (x : Int) : Int :=
  if x < 2 ^ 53 then x
  else if x < 2 ^ 54 then roundN x 1
  else if x < 2 ^ 55 then roundN x 2
  else if x < 2 ^ 56 then roundN x 3
  else if x < 2 ^ 57 then roundN x 4
  else if x < 2 ^ 58 then roundN x 5
  else if x < 2 ^ 59 then roundN x 6
  else if x < 2 ^ 60 then roundN x 7
  else if x < 2 ^ 61 then roundN x 8
  else if x < 2 ^ 62 then roundN x 9
  else x

/-- `DailyWordGenerator.seededRandom`: one LCG step
`((1103515245 * normalizedSeed + 12345) % 2^31) / 2^31` computed in JS
double arithmetic: the product and the subsequent addition each round to
binary64 (`fl64`); the `%` (fmod of non-negative integer-valued doubles by
`2^31`) and the final division by `2^31` are exact in doubles. -/
def seededRandom (seed : ℚ) : ℚ :=
  let next := fl64 (fl64 (1103515245 * normalizedSeed seed) + 12345) % 2147483648
  (next : ℚ) / 2147483648

/-- The word-list index computed by `getWordForDay`:
`Math.floor(seededRandom(createSeed(dayNumber)) * WORDS.length)`. -/
def wordIndexForDay (wordsLen : Nat) (dayNumber : Int) : Int :=
  Int.floor (seededRandom (createSeed dayNumber : ℚ) * (wordsLen : ℚ))

/-- `DailyWordGenerator.getWordForDay`, restricted to its `word` field:
`WORDS[wordIndex]` (the returned `dayNumber` is the argument itself and the
`date` field is presentation-only).  Out-of-range indexing, which in JS
would yield `undefined`, is `none`. -/
def getWordForDay (words : List String) (dayNumber : Int) : Option String :=
  words.get? (wordIndexForDay words.length dayNumber).toNat

end WordUp

namespace WordUp

/-- `C2`: the evaluator reproduces the spec's three worked examples:
`HELLO` vs `HELLO` is five `correct`s and a win; `HELLO` vs `WORLD` is
`[absent, present, absent, correct, absent]`; `HELLO` vs `LLAMA` is
`[present, present, absent, absent, absent]`. -/
theorem validateGuess_worked_examples :
    validateGuess "HELLO".toList "HELLO".toList =
      [Verdict.correct, Verdict.correct, Verdict.correct, Verdict.correct, Verdict.correct] ∧
    isWinStates (validateGuess "HELLO".toList "HELLO".toList) = true ∧
    validateGuess "HELLO".toList "WORLD".toList =
      [Verdict.absent, Verdict.present, Verdict.absent, Verdict.correct, Verdict.absent] ∧
    validateGuess "HELLO".toList "LLAMA".toList =
      [Verdict.present, Verdict.present, Verdict.absent, Verdict.absent, Verdict.absent] := by
  refine ⟨by decide, by decide, by decide, by decide⟩

/-- The LCG output always lands in `[0, 1)` (shared helper). -/
theorem seededRandom_mem_Ico (seed : ℚ) :
    0 ≤ seededRandom seed ∧ seededRandom seed < 1 := by
  unfold seededRandom
  have hm : (0 : ℤ) < 2147483648 := by norm_num
  have h0 : 0 ≤ fl64 (fl64 (1103515245 * normalizedSeed seed) + 12345) % 2147483648 :=
    Int.emod_nonneg _ (by norm_num)
  have h1 : fl64 (fl64 (1103515245 * normalizedSeed seed) + 12345) % 2147483648 < 2147483648 :=
    Int.emod_lt_of_pos _ hm
  constructor
  · exact div_nonneg (by exact_mod_cast h0) (by norm_num)
  · rw [div_lt_one (by norm_num)]
    exact_mod_cast h1

/-- `C8` counterexample: the program does not satisfy the claimed exact
formula.  At the reachable seed 634970991 (the day-0 seed produced by
`createSeed 0`), the binary64 product `1103515245 * 634970991` (about
`2^59.3`) rounds, so `seededRandom` returns `1233049728 / 2^31` while the
exact formula gives `1233049724 / 2^31`. -/
theorem seededRandom_fp_not_exact :
    seededRandom (634970991 : ℚ) ≠
      (((1103515245 * 634970991 + 12345) % 2147483648 : ℤ) : ℚ) / 2147483648 := by
  unfold seededRandom normalizedSeed fl64 roundN
  norm_num

/-- `C8` amended: for every rational seed, `seededRandom seed` equals
`((fl64 (fl64 (1103515245 * n) + 12345)) mod 2^31) / 2^31` — the claimed
LCG formula with the product and the addition rounded to binary64 as the
program's double arithmetic does — where `n = |⌊seed⌋|` when that is
nonzero and `1` otherwise; the result lies in `[0, 1)`; the function is
pure and total, so equal seeds yield equal values; and the original exact
formula does hold whenever `1103515245 * n + 12345 < 2^53`, where no
rounding occurs. -/
theorem seededRandom_spec (seed : ℚ) :
    (seededRandom seed =
      ((fl64 (fl64 (1103515245 * (if |Int.floor seed| = 0 then 1 else |Int.floor seed|)) +
          12345) % 2147483648 : ℤ) : ℚ) / 2147483648) ∧
    0 ≤ seededRandom seed ∧ seededRandom seed < 1 ∧
    (∀ s : ℚ, s = seed → seededRandom s = seededRandom seed) ∧
    (1103515245 * normalizedSeed seed + 12345 < 2 ^ 53 →
      seededRandom seed =
        (((1103515245 * (if |Int.floor seed| = 0 then 1 else |Int.floor seed|) + 12345) %
            2147483648 : ℤ) : ℚ) / 2147483648) := by
  refine ⟨rfl, (seededRandom_mem_Ico seed).1, (seededRandom_mem_Ico seed).2, ?_, ?_⟩
  · intro s hs
    rw [hs]
  · intro hsmall
    have hn1 : 1103515245 * normalizedSeed seed < 2 ^ 53 := by omega
    have e1 : fl64 (1103515245 * normalizedSeed seed) =
        1103515245 * normalizedSeed seed := by
      unfold fl64
      rw [if_pos hn1]
    have hval : seededRandom seed =
        ((fl64 (fl64 (1103515245 * normalizedSeed seed) + 12345) % 2147483648 : ℤ) : ℚ) /
          2147483648 := rfl
    rw [hval, e1]
    have e2 : fl64 (1103515245 * normalizedSeed seed + 12345) =
        1103515245 * normalizedSeed seed + 12345 := by
      unfold fl64
      rw [if_pos hsmall]
    rw [e2]
    rfl

/-- `C8` witness at seed 1: the normalized seed is 1, the product stays
below `2^53`, and the exact LCG formula holds. -/
theorem seededRandom_spec_witness :
    1103515245 * normalizedSeed 1 + 12345 < 2 ^ 53 ∧
    seededRandom 1 =
      (((1103515245 * (if |Int.floor (1 : ℚ)| = 0 then 1 else |Int.floor (1 : ℚ)|) + 12345) %
          2147483648 : ℤ) : ℚ) / 2147483648 :=
  ⟨by norm_num [normalizedSeed],
   (seededRandom_spec 1).2.2.2.2 (by norm_num [normalizedSeed])⟩

/-- `C10` counterexample: the sign-blindness claimed for every numeric seed
fails at the non-integer seed `5/2`, because `Math.floor` runs before
`Math.abs`: `⌊5/2⌋ = 2` but `|⌊-5/2⌋| = 3`. -/
theorem seededRandom_not_sign_blind :
    seededRandom (-(5/2 : ℚ)) ≠ seededRandom (5/2 : ℚ) := by
  unfold seededRandom normalizedSeed fl64
  norm_num

/-- `C10` amended: for every integer seed `s`,
`seededRandom (-s) = seededRandom s`, and `seededRandom 0 = seededRandom 1`;
so integer seeds of equal magnitude and opposite sign produce the same
value. -/
theorem seededRandom_int_sign_blind (s : ℤ) :
    seededRandom (-(s : ℚ)) = seededRandom (s : ℚ) ∧
    seededRandom 0 = seededRandom 1 := by
  constructor
  · have h : normalizedSeed (-(s : ℚ)) = normalizedSeed (s : ℚ) := by
      unfold normalizedSeed
      have h1 : Int.floor (-(s : ℚ)) = -s := by
        rw [show (-(s : ℚ)) = ((-s : ℤ) : ℚ) by push_cast; ring, Int.floor_intCast]
      have h2 : Int.floor ((s : ℚ)) = s := Int.floor_intCast s
      rw [h1, h2, abs_neg]
    unfold seededRandom
    rw [h]
  · unfold seededRandom normalizedSeed fl64
    norm_num

/-- `C5`: for every integer day number, the computed word index lies in
`[0, words.length)`, `getWordForDay` returns an element of the word list,
and the selection is deterministic (equal day numbers yield the same
word). -/
theorem getWordForDay_total (words : List String) (d : ℤ) (h : 0 < words.length) :
    0 ≤ wordIndexForDay words.length d ∧
    wordIndexForDay words.length d < (words.length : ℤ) ∧
    (∃ w, getWordForDay words d = some w ∧ w ∈ words) ∧
    (∀ d' : ℤ, d' = d → getWordForDay words d' = getWordForDay words d) := by
  have hv := seededRandom_mem_Ico ((createSeed d : ℤ) : ℚ)
  have hlen : (0 : ℚ) < (words.length : ℚ) := by exact_mod_cast h
  have hlo : 0 ≤ wordIndexForDay words.length d := by
    unfold wordIndexForDay
    rw [Int.le_floor]
    exact_mod_cast mul_nonneg hv.1 hlen.le
  have hhi : wordIndexForDay words.length d < (words.length : ℤ) := by
    unfold wordIndexForDay
    rw [Int.floor_lt]
    calc seededRandom ((createSeed d : ℤ) : ℚ) * (words.length : ℚ)
        < 1 * (words.length : ℚ) := by
          exact mul_lt_mul_of_pos_right hv.2 hlen
      _ = ((words.length : ℤ) : ℚ) := by push_cast; ring
  have hnat : (wordIndexForDay words.length d).toNat < words.length := by
    omega
  refine ⟨hlo, hhi, ⟨words.get ⟨(wordIndexForDay words.length d).toNat, hnat⟩, ?_, ?_⟩, ?_⟩
  · unfold getWordForDay
    exact List.get?_eq_get hnat
  · exact List.get_mem _ _ _
  · intro d' hd'
    rw [hd']

/-- `C5` witness: a singleton word list at day 0 — the index is in range and
the selected word is in the list. -/
theorem getWordForDay_total_witness :
    0 < (["APPLE"] : List String).length ∧
    (∃ w, getWordForDay ["APPLE"] 0 = some w ∧ w ∈ (["APPLE"] : List String)) :=
  ⟨by decide, (getWordForDay_total ["APPLE"] 0 (by decide)).2.2.1⟩

/-- A failing `submitGuess` leaves the session untouched (shared helper). -/
theorem submitGuess_failure_frame (words : List (List Char)) (s : Session)
    (h : (submitGuess words s).1.isFailure = true) : (submitGuess words s).2 = s := by
  by_cases h1 : s.currentCol < maxCols
  · simp [submitGuess, h1]
  · by_cases h2 : isValidWord words (s.rowLetters.map toUpperChar)
    · exfalso
      by_cases h3 : isWinStates (validateGuess s.targetWord (s.rowLetters.map toUpperChar))
      · simp [submitGuess, h1, h2, h3, Outcome.isFailure] at h
      · by_cases h4 : s.currentRow + 1 ≥ maxRows
        · simp [submitGuess, h1, h2, h3, h4, Outcome.isFailure] at h
        · simp [submitGuess, h1, h2, h3, h4, Outcome.isFailure] at h
    · simp [submitGuess, h1, h2]

/-- `C4`: every failing outcome of `processKeyPress` (game over, invalid
key, row full, nothing to delete, row incomplete, word not recognized)
leaves the whole session state unchanged, so repeating the same input
yields the same result and the same state. -/
theorem processKeyPress_failure_frame (words : List (List Char)) (s : Session) (key : String)
    (h : (processKeyPress words s key).1.isFailure = true) :
    (processKeyPress words s key).2 = s ∧
    processKeyPress words (processKeyPress words s key).2 key = processKeyPress words s key := by
  have hframe : (processKeyPress words s key).2 = s := by
    by_cases hg : s.gameState ≠ GState.playing
    · simp [processKeyPress, hg]
    · by_cases he : key = "ENTER"
      · have hs : processKeyPress words s key = submitGuess words s := by
          simp [processKeyPress, hg, he]
        rw [hs] at h ⊢
        exact submitGuess_failure_frame words s h
      · by_cases hb : key = "BACKSPACE"
        · by_cases hc : s.currentCol ≤ 0
          · simp [processKeyPress, hg, he, hb, deleteLetter, hc]
          · simp [processKeyPress, hg, he, hb, deleteLetter, hc, Outcome.isFailure] at h
        · match hk : key.data with
          | [c] =>
            by_cases hu : isUpperAZ c
            · by_cases hf : s.currentCol ≥ maxCols
              · simp [processKeyPress, hg, he, hb, hk, hu, addLetter, hf]
              · simp [processKeyPress, hg, he, hb, hk, hu, addLetter, hf,
                  Outcome.isFailure] at h
            · simp [processKeyPress, hg, he, hb, hk, hu]
          | [] => simp [processKeyPress, hg, he, hb, hk]
          | _ :: _ :: _ => simp [processKeyPress, hg, he, hb, hk]
  exact ⟨hframe, by rw [hframe]⟩

/-- `C4` witness: an unrecognized key on a fresh game fails and leaves the
state unchanged. -/
theorem processKeyPress_failure_frame_witness :
    (processKeyPress [] (startNewGame []) "1").1.isFailure = true ∧
    (processKeyPress [] (startNewGame []) "1").2 = startNewGame [] :=
  ⟨by decide, (processKeyPress_failure_frame [] (startNewGame []) "1" (by decide)).1⟩

/-- Outside `playing`, `processKeyPress` fails with `Game is over` and
leaves the state untouched (shared helper). -/
theorem processKeyPress_not_playing (words : List (List Char)) (s : Session) (key : String)
    (hg : s.gameState ≠ GState.playing) : processKeyPress words s key = (.gameOver, s) := by
  simp [processKeyPress, hg]

/-- While `playing`, a key press dispatches to `submitGuess`,
`deleteLetter`, `addLetter`, or the invalid-key result (shared helper). -/
theorem processKeyPress_cases (words : List (List Char)) (s : Session) (key : String)
    (hg : s.gameState = GState.playing) :
    processKeyPress words s key = submitGuess words s ∨
    processKeyPress words s key = deleteLetter s ∨
    (∃ c, processKeyPress words s key = addLetter s c) ∨
    processKeyPress words s key = (.invalidKey, s) := by
  by_cases he : key = "ENTER"
  · exact Or.inl (by simp [processKeyPress, hg, he])
  · by_cases hb : key = "BACKSPACE"
    · exact Or.inr (Or.inl (by simp [processKeyPress, hg, he, hb]))
    · match hk : key.data with
      | [c] =>
        by_cases hu : isUpperAZ c
        · exact Or.inr (Or.inr (Or.inl ⟨c, by simp [processKeyPress, hg, he, hb, hk, hu]⟩))
        · exact Or.inr (Or.inr (Or.inr (by simp [processKeyPress, hg, he, hb, hk, hu])))
      | [] => exact Or.inr (Or.inr (Or.inr (by simp [processKeyPress, hg, he, hb, hk])))
      | _ :: _ :: _ => exact Or.inr (Or.inr (Or.inr (by simp [processKeyPress, hg, he, hb, hk])))

/-- `submitGuess` on a short row (shared helper). -/
theorem submitGuess_short (words : List (List Char)) (s : Session)
    (h1 : s.currentCol < maxCols) :
    submitGuess words s = (.rowIncomplete s.currentRow, s) := by
  simp [submitGuess, h1]

/-- `submitGuess` on an unrecognized word (shared helper). -/
theorem submitGuess_badWord (words : List (List Char)) (s : Session)
    (h1 : ¬ s.currentCol < maxCols)
    (h2 : isValidWord words (s.rowLetters.map toUpperChar) = false) :
    submitGuess words s = (.wordNotRecognized s.currentRow, s) := by
  simp [submitGuess, h1, h2]

/-- `submitGuess` on a winning guess: record the row, set `won`, leave the
cursor where it is (shared helper). -/
theorem submitGuess_win (words : List (List Char)) (s : Session)
    (h1 : ¬ s.currentCol < maxCols)
    (h2 : isValidWord words (s.rowLetters.map toUpperChar) = true)
    (h3 : isWinStates (validateGuess s.targetWord (s.rowLetters.map toUpperChar)) = true) :
    submitGuess words s =
      (.winGame s.currentRow (s.rowLetters.map toUpperChar)
        (validateGuess s.targetWord (s.rowLetters.map toUpperChar)) (s.currentRow + 1),
       { s with
          guesses := s.guesses ++
            [(s.rowLetters.map toUpperChar,
              validateGuess s.targetWord (s.rowLetters.map toUpperChar))],
          letterStates := updateLetterStates s.letterStates (s.rowLetters.map toUpperChar)
            (validateGuess s.targetWord (s.rowLetters.map toUpperChar)),
          gameState := GState.won }) := by
  simp [submitGuess, h1, h2, h3]

/-- `submitGuess` on the losing sixth guess: advance the cursor to row 6,
column 0, set `lost` (shared helper). -/
theorem submitGuess_lose (words : List (List Char)) (s : Session)
    (h1 : ¬ s.currentCol < maxCols)
    (h2 : isValidWord words (s.rowLetters.map toUpperChar) = true)
    (h3 : isWinStates (validateGuess s.targetWord (s.rowLetters.map toUpperChar)) = false)
    (h4 : s.currentRow + 1 ≥ maxRows) :
    submitGuess words s =
      (.loseGame (s.currentRow + 1 - 1) (s.rowLetters.map toUpperChar)
        (validateGuess s.targetWord (s.rowLetters.map toUpperChar)) s.targetWord,
       { s with
          guesses := s.guesses ++
            [(s.rowLetters.map toUpperChar,
              validateGuess s.targetWord (s.rowLetters.map toUpperChar))],
          letterStates := updateLetterStates s.letterStates (s.rowLetters.map toUpperChar)
            (validateGuess s.targetWord (s.rowLetters.map toUpperChar)),
          currentRow := s.currentRow + 1,
          currentCol := 0,
          rowLetters := [],
          gameState := GState.lost }) := by
  simp [submitGuess, h1, h2, h3, h4]

/-- `submitGuess` on an accepted non-final, non-winning guess: advance to
the next row, column 0 (shared helper). -/
theorem submitGuess_continue (words : List (List Char)) (s : Session)
    (h1 : ¬ s.currentCol < maxCols)
    (h2 : isValidWord words (s.rowLetters.map toUpperChar) = true)
    (h3 : isWinStates (validateGuess s.targetWord (s.rowLetters.map toUpperChar)) = false)
    (h4 : ¬ s.currentRow + 1 ≥ maxRows) :
    submitGuess words s =
      (.continueGame (s.currentRow + 1 - 1) (s.rowLetters.map toUpperChar)
        (validateGuess s.targetWord (s.rowLetters.map toUpperChar)),
       { s with
          guesses := s.guesses ++
            [(s.rowLetters.map toUpperChar,
              validateGuess s.targetWord (s.rowLetters.map toUpperChar))],
          letterStates := updateLetterStates s.letterStates (s.rowLetters.map toUpperChar)
            (validateGuess s.targetWord (s.rowLetters.map toUpperChar)),
          currentRow := s.currentRow + 1,
          currentCol := 0,
          rowLetters := [] }) := by
  simp [submitGuess, h1, h2, h3, h4]

/-- `deleteLetter` outside column 0 (shared helper). -/
theorem deleteLetter_ok (s : Session) (hc : ¬ s.currentCol ≤ 0) :
    deleteLetter s =
      (.deleteLetterOk s.currentRow (s.currentCol - 1),
       { s with currentCol := s.currentCol - 1, rowLetters := s.rowLetters.dropLast }) := by
  simp [deleteLetter, hc]

/-- `addLetter` below column 5 (shared helper). -/
theorem addLetter_ok (s : Session) (c : Char) (hf : ¬ s.currentCol ≥ maxCols) :
    addLetter s c =
      (.addLetterOk c s.currentRow s.currentCol,
       { s with currentCol := s.currentCol + 1, rowLetters := s.rowLetters ++ [c] }) := by
  simp [addLetter, hf]

/-- One key press preserves the cursor invariant (shared helper). -/
theorem sessionInv_step (words : List (List Char)) (s : Session) (key : String)
    (h : SessionInv s) : SessionInv (processKeyPress words s key).2 := by
  obtain ⟨hc0, hc5, hr0, hr6, hp⟩ := h
  by_cases hg : s.gameState = GState.playing
  case neg =>
    rw [processKeyPress_not_playing words s key hg]
    exact ⟨hc0, hc5, hr0, hr6, hp⟩
  case pos =>
    have hr5 : s.currentRow ≤ 5 := hp hg
    rcases processKeyPress_cases words s key hg with hk | hk | ⟨c, hk⟩ | hk
    · rw [hk]
      by_cases h1 : s.currentCol < maxCols
      · rw [submitGuess_short words s h1]
        exact ⟨hc0, hc5, hr0, hr6, hp⟩
      · cases h2 : isValidWord words (s.rowLetters.map toUpperChar) with
        | false =>
          rw [submitGuess_badWord words s h1 h2]
          exact ⟨hc0, hc5, hr0, hr6, hp⟩
        | true =>
          cases h3 : isWinStates (validateGuess s.targetWord (s.rowLetters.map toUpperChar)) with
          | true =>
            rw [submitGuess_win words s h1 h2 h3]
            exact ⟨hc0, hc5, hr0, hr6, fun hcon => nomatch hcon⟩
          | false =>
            by_cases h4 : s.currentRow + 1 ≥ maxRows
            · rw [submitGuess_lose words s h1 h2 h3 h4]
              simp only [maxRows] at h4
              unfold SessionInv
              dsimp only
              exact ⟨by omega, by omega, by omega, by omega, fun hcon => nomatch hcon⟩
            · rw [submitGuess_continue words s h1 h2 h3 h4]
              simp only [maxRows] at h4
              unfold SessionInv
              dsimp only
              exact ⟨by omega, by omega, by omega, by omega, fun _ => by omega⟩
    · rw [hk]
      by_cases hc : s.currentCol ≤ 0
      · rw [show deleteLetter s = (Outcome.nothingToDelete, s) by simp [deleteLetter, hc]]
        exact ⟨hc0, hc5, hr0, hr6, hp⟩
      · rw [deleteLetter_ok s hc]
        unfold SessionInv
        dsimp only
        exact ⟨by omega, by omega, by omega, by omega, fun h => hp h⟩
    · rw [hk]
      by_cases hf : s.currentCol ≥ maxCols
      · rw [show addLetter s c = (Outcome.rowFull, s) by simp [addLetter, hf]]
        exact ⟨hc0, hc5, hr0, hr6, hp⟩
      · rw [addLetter_ok s c hf]
        simp only [maxCols] at hf
        unfold SessionInv
        dsimp only
        exact ⟨by omega, by omega, by omega, by omega, fun h => hp h⟩
    · rw [hk]
      exact ⟨hc0, hc5, hr0, hr6, hp⟩

/-- The cursor invariant holds after any run of key presses (shared
helper). -/
theorem sessionInv_runKeys (words : List (List Char)) (s : Session) (keys : List String)
    (h : SessionInv s) : SessionInv (runKeys words s keys) := by
  induction keys generalizing s with
  | nil => exact h
  | cons k ks ih => exact ih _ (sessionInv_step words s k h)

/-- A fresh game satisfies the cursor invariant (shared helper). -/
theorem sessionInv_start (target : List Char) : SessionInv (startNewGame target) := by
  unfold SessionInv startNewGame
  norm_num

set_option maxRecDepth 10000 in
/-- `C1` counterexample: from a fresh game on target `WORLD` with `ABOUT` in
the dictionary, submitting `ABOUT` six times drives `currentRow` to 6 — the
claimed bound `currentRow ≤ 5` is violated by the lose branch. -/
theorem currentRow_reaches_six :
    (runKeys ["ABOUT".toList] (startNewGame "WORLD".toList)
      (["A", "B", "O", "U", "T", "ENTER"] ++ ["A", "B", "O", "U", "T", "ENTER"] ++
       ["A", "B", "O", "U", "T", "ENTER"] ++ ["A", "B", "O", "U", "T", "ENTER"] ++
       ["A", "B", "O", "U", "T", "ENTER"] ++
       ["A", "B", "O", "U", "T", "ENTER"])).currentRow = 6 := by decide

/-- `C1` amended: after any sequence of key presses on a fresh game,
`currentCol` stays within `[0, 5]` and `currentRow` stays within `[0, 6]`,
reaching 6 only when the game is no longer `playing` (the lose branch
advances the row to 6 before setting `lost`). -/
theorem cursor_bounds (words : List (List Char)) (target : List Char) (keys : List String) :
    0 ≤ (runKeys words (startNewGame target) keys).currentCol ∧
    (runKeys words (startNewGame target) keys).currentCol ≤ 5 ∧
    0 ≤ (runKeys words (startNewGame target) keys).currentRow ∧
    (runKeys words (startNewGame target) keys).currentRow ≤ 6 ∧
    ((runKeys words (startNewGame target) keys).gameState = GState.playing →
      (runKeys words (startNewGame target) keys).currentRow ≤ 5) :=
  sessionInv_runKeys words (startNewGame target) keys (sessionInv_start target)

/-- A single hint upgrade never lowers any letter's priority (shared
helper). -/
theorem statePriority_le_upgradeHint (ls : Char → Verdict) (p : Char × Verdict) (c : Char) :
    statePriority (ls c) ≤ statePriority (upgradeHint ls p c) := by
  unfold upgradeHint
  split
  case isTrue h =>
    by_cases hc : c = p.1
    · subst hc
      dsimp only
      rw [if_pos rfl]
      omega
    · dsimp only
      rw [if_neg hc]
  case isFalse h => exact le_refl _

/-- Folding hint upgrades never lowers any letter's priority (shared
helper). -/
theorem statePriority_le_foldl (l : List (Char × Verdict)) (ls : Char → Verdict) (c : Char) :
    statePriority (ls c) ≤ statePriority ((l.foldl upgradeHint ls) c) := by
  induction l generalizing ls with
  | nil => exact le_refl _
  | cons p rest ih =>
    exact le_trans (statePriority_le_upgradeHint ls p c) (ih (upgradeHint ls p))

/-- One key press never lowers any letter's hint priority (shared
helper). -/
theorem letterHints_step (words : List (List Char)) (s : Session) (key : String) (c : Char) :
    statePriority (s.letterStates c) ≤
      statePriority ((processKeyPress words s key).2.letterStates c) := by
  by_cases hg : s.gameState = GState.playing
  · rcases processKeyPress_cases words s key hg with hk | hk | ⟨l, hk⟩ | hk
    · rw [hk]
      by_cases h1 : s.currentCol < maxCols
      · rw [submitGuess_short words s h1]
      · cases h2 : isValidWord words (s.rowLetters.map toUpperChar) with
        | false => rw [submitGuess_badWord words s h1 h2]
        | true =>
          cases h3 : isWinStates (validateGuess s.targetWord (s.rowLetters.map toUpperChar)) with
          | true =>
            rw [submitGuess_win words s h1 h2 h3]
            exact statePriority_le_foldl _ s.letterStates c
          | false =>
            by_cases h4 : s.currentRow + 1 ≥ maxRows
            · rw [submitGuess_lose words s h1 h2 h3 h4]
              exact statePriority_le_foldl _ s.letterStates c
            · rw [submitGuess_continue words s h1 h2 h3 h4]
              exact statePriority_le_foldl _ s.letterStates c
    · rw [hk]
      by_cases hc : s.currentCol ≤ 0
      · rw [show deleteLetter s = (Outcome.nothingToDelete, s) by simp [deleteLetter, hc]]
      · rw [deleteLetter_ok s hc]
    · rw [hk]
      by_cases hf : s.currentCol ≥ maxCols
      · rw [show addLetter s l = (Outcome.rowFull, s) by simp [addLetter, hf]]
      · rw [addLetter_ok s l hf]
    · rw [hk]
  · rw [processKeyPress_not_playing words s key hg]

/-- Priority 3 is only reached by `correct` (shared helper). -/
theorem statePriority_three (v : Verdict) (h : 3 ≤ statePriority v) : v = Verdict.correct := by
  cases v <;> simp_all [statePriority]

/-- `C6`: across any sequence of key presses, every letter's keyboard hint
only moves upward in the priority order
`unused < absent < present < correct`; in particular a letter whose hint is
`correct` keeps it. -/
theorem letterHints_monotone (words : List (List Char)) (s : Session) (keys : List String)
    (c : Char) :
    statePriority (s.letterStates c) ≤
      statePriority ((runKeys words s keys).letterStates c) ∧
    (s.letterStates c = Verdict.correct →
      (runKeys words s keys).letterStates c = Verdict.correct) := by
  have hle : statePriority (s.letterStates c) ≤
      statePriority ((runKeys words s keys).letterStates c) := by
    induction keys generalizing s with
    | nil => exact le_refl _
    | cons k ks ih =>
      exact le_trans (letterHints_step words s k c) (ih (processKeyPress words s k).2)
  refine ⟨hle, fun hcor => ?_⟩
  apply statePriority_three
  rw [hcor] at hle
  exact hle

/-- `C6` witness: a hint already at `correct` survives a key press. -/
theorem letterHints_monotone_witness :
    (runKeys [] { startNewGame [] with letterStates := fun _ => Verdict.correct }
      ["A"]).letterStates 'A' = Verdict.correct :=
  (letterHints_monotone [] { startNewGame [] with letterStates := fun _ => Verdict.correct }
    ["A"] 'A').2 rfl

/-- A terminal session absorbs whole key sequences unchanged (shared
helper). -/
theorem runKeys_not_playing (words : List (List Char)) (s : Session) (keys : List String)
    (hg : s.gameState ≠ GState.playing) : runKeys words s keys = s := by
  induction keys with
  | nil => rfl
  | cons k ks ih =>
    show runKeys words (processKeyPress words s k).2 ks = s
    rw [processKeyPress_not_playing words s k hg]
    exact ih

/-- One key press either keeps the status or moves `playing` to `won` or
`lost` (shared helper). -/
theorem gameState_step (words : List (List Char)) (s : Session) (key : String) :
    (processKeyPress words s key).2.gameState = s.gameState ∨
    (s.gameState = GState.playing ∧
      ((processKeyPress words s key).2.gameState = GState.won ∨
       (processKeyPress words s key).2.gameState = GState.lost)) := by
  by_cases hg : s.gameState = GState.playing
  · rcases processKeyPress_cases words s key hg with hk | hk | ⟨l, hk⟩ | hk
    · rw [hk]
      by_cases h1 : s.currentCol < maxCols
      · rw [submitGuess_short words s h1]
        exact Or.inl rfl
      · cases h2 : isValidWord words (s.rowLetters.map toUpperChar) with
        | false =>
          rw [submitGuess_badWord words s h1 h2]
          exact Or.inl rfl
        | true =>
          cases h3 : isWinStates (validateGuess s.targetWord (s.rowLetters.map toUpperChar)) with
          | true =>
            rw [submitGuess_win words s h1 h2 h3]
            exact Or.inr ⟨hg, Or.inl rfl⟩
          | false =>
            by_cases h4 : s.currentRow + 1 ≥ maxRows
            · rw [submitGuess_lose words s h1 h2 h3 h4]
              exact Or.inr ⟨hg, Or.inr rfl⟩
            · rw [submitGuess_continue words s h1 h2 h3 h4]
              exact Or.inl rfl
    · rw [hk]
      by_cases hc : s.currentCol ≤ 0
      · rw [show deleteLetter s = (Outcome.nothingToDelete, s) by simp [deleteLetter, hc]]
        exact Or.inl rfl
      · rw [deleteLetter_ok s hc]
        exact Or.inl rfl
    · rw [hk]
      by_cases hf : s.currentCol ≥ maxCols
      · rw [show addLetter s l = (Outcome.rowFull, s) by simp [addLetter, hf]]
        exact Or.inl rfl
      · rw [addLetter_ok s l hf]
        exact Or.inl rfl
    · rw [hk]
      exact Or.inl rfl
  · rw [processKeyPress_not_playing words s key hg]
    exact Or.inl rfl

/-- `C7`: the session status is monotone and terminal — once the status is
not `playing`, any sequence of key presses leaves the whole session
unchanged and every single press fails with the game-over result; and a
press that changes the status can only take `playing` to `won` or `lost`. -/
theorem status_monotone (words : List (List Char)) (s : Session) (key : String)
    (keys : List String) :
    (s.gameState ≠ GState.playing →
       runKeys words s keys = s ∧ (processKeyPress words s key).1 = Outcome.gameOver) ∧
    ((processKeyPress words s key).2.gameState ≠ s.gameState →
       s.gameState = GState.playing ∧
       ((processKeyPress words s key).2.gameState = GState.won ∨
        (processKeyPress words s key).2.gameState = GState.lost)) := by
  constructor
  · intro hg
    refine ⟨runKeys_not_playing words s keys hg, ?_⟩
    rw [processKeyPress_not_playing words s key hg]
  · intro hne
    rcases gameState_step words s key with h | ⟨hp, hwl⟩
    · exact absurd h hne
    · exact ⟨hp, hwl⟩

/-- `C7` witness: a won session absorbs a key press with `gameOver`. -/
theorem status_monotone_witness :
    runKeys [] { startNewGame [] with gameState := GState.won } ["A"] =
      { startNewGame [] with gameState := GState.won } ∧
    (processKeyPress [] { startNewGame [] with gameState := GState.won } "A").1 =
      Outcome.gameOver :=
  (status_monotone [] { startNewGame [] with gameState := GState.won } "A" ["A"]).1 (by decide)

/-- `C9`: a winning submission freezes the cursor — after a `winGame`
outcome the row is unchanged (and is the reported row, with
`guessCount = currentRow + 1`) and the column is unchanged (hence still 5
under the column bound); only the `continueGame` and `loseGame` branches
advance the row and reset the column to 0. -/
theorem win_freezes_cursor (words : List (List Char)) (s : Session) :
    (∀ r ls st gc, (processKeyPress words s "ENTER").1 = Outcome.winGame r ls st gc →
       (processKeyPress words s "ENTER").2.currentRow = s.currentRow ∧
       (processKeyPress words s "ENTER").2.currentCol = s.currentCol ∧
       r = s.currentRow ∧ gc = s.currentRow + 1 ∧
       (s.currentCol ≤ 5 → (processKeyPress words s "ENTER").2.currentCol = 5)) ∧
    (∀ r ls st, (processKeyPress words s "ENTER").1 = Outcome.continueGame r ls st →
       (processKeyPress words s "ENTER").2.currentRow = s.currentRow + 1 ∧
       (processKeyPress words s "ENTER").2.currentCol = 0) ∧
    (∀ r ls st tw, (processKeyPress words s "ENTER").1 = Outcome.loseGame r ls st tw →
       (processKeyPress words s "ENTER").2.currentRow = s.currentRow + 1 ∧
       (processKeyPress words s "ENTER").2.currentCol = 0) := by
  by_cases hg : s.gameState = GState.playing
  · have hsub : processKeyPress words s "ENTER" = submitGuess words s := by
      simp [processKeyPress, hg]
    rw [hsub]
    by_cases h1 : s.currentCol < maxCols
    · rw [submitGuess_short words s h1]
      refine ⟨?_, ?_, ?_⟩ <;> intro r ls st
      · intro gc h
        simp at h
      · intro h
        simp at h
      · intro tw h
        simp at h
    · cases h2 : isValidWord words (s.rowLetters.map toUpperChar) with
      | false =>
        rw [submitGuess_badWord words s h1 h2]
        refine ⟨?_, ?_, ?_⟩ <;> intro r ls st
        · intro gc h
          simp at h
        · intro h
          simp at h
        · intro tw h
          simp at h
      | true =>
        cases h3 : isWinStates (validateGuess s.targetWord (s.rowLetters.map toUpperChar)) with
        | true =>
          rw [submitGuess_win words s h1 h2 h3]
          refine ⟨?_, ?_, ?_⟩ <;> intro r ls st
          · intro gc h
            simp only [Outcome.winGame.injEq] at h
            obtain ⟨hr, -, -, hgc⟩ := h
            simp only [maxCols] at h1
            refine ⟨rfl, rfl, hr.symm, hgc.symm, fun hle => ?_⟩
            show s.currentCol = 5
            omega
          · intro h
            simp at h
          · intro tw h
            simp at h
        | false =>
          by_cases h4 : s.currentRow + 1 ≥ maxRows
          · rw [submitGuess_lose words s h1 h2 h3 h4]
            refine ⟨?_, ?_, ?_⟩ <;> intro r ls st
            · intro gc h
              simp at h
            · intro h
              simp at h
            · intro tw h
              exact ⟨rfl, rfl⟩
          · rw [submitGuess_continue words s h1 h2 h3 h4]
            refine ⟨?_, ?_, ?_⟩ <;> intro r ls st
            · intro gc h
              simp at h
            · intro h
              exact ⟨rfl, rfl⟩
            · intro tw h
              simp at h
  · rw [processKeyPress_not_playing words s "ENTER" hg]
    refine ⟨?_, ?_, ?_⟩ <;> intro r ls st
    · intro gc h
      simp at h
    · intro h
      simp at h
    · intro tw h
      simp at h

/-- Counting decomposition: a predicate implied by the union of two others
counts at most their sum (shared helper). -/
theorem countP_le_add_of_imp {α : Type} (l : List α) (p q r : α → Bool)
    (h : ∀ x, p x = true → q x = true ∨ r x = true) :
    l.countP p ≤ l.countP q + l.countP r := by
  induction l with
  | nil => simp
  | cons a l ih =>
    have ha := h a
    simp only [List.countP_cons]
    cases hp : p a <;> cases hq : q a <;> cases hr : r a <;> simp_all <;> omega

/-- An uppercase letter is fixed by `toUpperChar` (shared helper). -/
theorem toUpperChar_of_upper (c : Char) (h : isUpperAZ c) : toUpperChar c = c := by
  unfold toUpperChar
  unfold isUpperAZ at h
  rw [if_neg]
  omega

/-- A list of uppercase letters is fixed by mapping `toUpperChar` (shared
helper). -/
theorem map_toUpperChar_of_upper (l : List Char) (h : ∀ c ∈ l, isUpperAZ c) :
    l.map toUpperChar = l := by
  induction l with
  | nil => rfl
  | cons a l ih =>
    simp only [List.map_cons]
    rw [toUpperChar_of_upper a (h a (by simp)), ih (fun c hc => h c (by simp [hc]))]

/-- Head expansion of `exactMatches` (shared helper). -/
theorem exactMatches_cons (a b : Char) (gs ts : List Char) (L : Char) :
    exactMatches (a :: gs) (b :: ts) L =
      exactMatches gs ts L + if a = L ∧ b = L then 1 else 0 := by
  unfold exactMatches
  rw [List.zip_cons_cons, List.countP_cons]
  by_cases h : a = L ∧ b = L
  · rw [if_pos (by simpa using h), if_pos h]
  · rw [if_neg (by simpa using h), if_neg h]

/-- Head expansion of `corrCount` (shared helper). -/
theorem corrCount_cons (a : Char) (v : Verdict) (gs : List Char) (vs : List Verdict)
    (L : Char) :
    corrCount (a :: gs) (v :: vs) L =
      corrCount gs vs L + if a = L ∧ v = Verdict.correct then 1 else 0 := by
  unfold corrCount
  rw [List.zip_cons_cons, List.countP_cons]
  by_cases h : a = L ∧ v = Verdict.correct
  · rw [if_pos (by simpa using h), if_pos h]
  · rw [if_neg (by simpa using h), if_neg h]

/-- Head expansion of `presCount` (shared helper). -/
theorem presCount_cons (a : Char) (v : Verdict) (gs : List Char) (vs : List Verdict)
    (L : Char) :
    presCount (a :: gs) (v :: vs) L =
      presCount gs vs L + if a = L ∧ v = Verdict.present then 1 else 0 := by
  unfold presCount
  rw [List.zip_cons_cons, List.countP_cons]
  by_cases h : a = L ∧ v = Verdict.present
  · rw [if_pos (by simpa using h), if_pos h]
  · rw [if_neg (by simpa using h), if_neg h]

/-- The first pass decrements each letter's count once per exact match
(shared helper). -/
theorem markCorrect_counts (g : List Char) (L : Char) :
    ∀ (t : List Char) (counts : Char → Int),
      (markCorrect g t counts).2 L = counts L - exactMatches g t L := by
  induction g with
  | nil => intro t counts; cases t <;> simp [markCorrect, exactMatches]
  | cons a gs ih =>
    intro t counts
    cases t with
    | nil => simp [markCorrect, exactMatches]
    | cons b ts =>
      rw [exactMatches_cons]
      by_cases hab : a = b
      · subst hab
        have heq : markCorrect (a :: gs) (a :: ts) counts =
            (Verdict.correct :: (markCorrect gs ts (decCount counts a)).1,
             (markCorrect gs ts (decCount counts a)).2) := by
          simp [markCorrect]
        rw [heq]
        dsimp only
        rw [ih ts (decCount counts a)]
        unfold decCount
        by_cases hL : L = a
        · subst hL
          rw [if_pos rfl, if_pos ⟨rfl, rfl⟩]
          push_cast
          ring
        · rw [if_neg hL, if_neg (fun hcon => hL hcon.1.symm)]
          push_cast
          ring
      · have heq : markCorrect (a :: gs) (b :: ts) counts =
            (Verdict.absent :: (markCorrect gs ts counts).1,
             (markCorrect gs ts counts).2) := by
          simp [markCorrect, hab]
        rw [heq]
        dsimp only
        rw [ih ts counts]
        rw [if_neg (fun hcon => hab (hcon.1.trans hcon.2.symm))]
        push_cast
        ring

/-- Exact matches of `L` never exceed `L`'s occurrences in the target
(shared helper). -/
theorem exactMatches_le_count (g : List Char) (L : Char) :
    ∀ t : List Char, exactMatches g t L ≤ t.count L := by
  induction g with
  | nil => intro t; simp [exactMatches]
  | cons a gs ih =>
    intro t
    cases t with
    | nil => simp [exactMatches]
    | cons b ts =>
      rw [exactMatches_cons, List.count_cons]
      have hrec := ih ts
      by_cases hab : a = L ∧ b = L
      · rw [if_pos hab, if_pos (by simp [hab.2])]
        omega
      · rw [if_neg hab]
        by_cases hbL : b = L
        · rw [if_pos (by simp [hbL])]
          omega
        · rw [if_neg (by simp [hbL])]
          omega

/-- The first pass marks exactly the exact matches `correct` (shared
helper). -/
theorem corrCount_markCorrect (g : List Char) (L : Char) :
    ∀ (t : List Char) (counts : Char → Int),
      corrCount g (markCorrect g t counts).1 L = exactMatches g t L := by
  induction g with
  | nil => intro t counts; cases t <;> simp [markCorrect, corrCount, exactMatches]
  | cons a gs ih =>
    intro t counts
    cases t with
    | nil => simp [markCorrect, corrCount, exactMatches]
    | cons b ts =>
      by_cases hab : a = b
      · subst hab
        have heq : markCorrect (a :: gs) (a :: ts) counts =
            (Verdict.correct :: (markCorrect gs ts (decCount counts a)).1,
             (markCorrect gs ts (decCount counts a)).2) := by
          simp [markCorrect]
        rw [heq]
        dsimp only
        rw [corrCount_cons, exactMatches_cons, ih ts (decCount counts a)]
        by_cases haL : a = L
        · rw [if_pos ⟨haL, rfl⟩, if_pos ⟨haL, haL⟩]
        · rw [if_neg (fun hcon => haL hcon.1), if_neg (fun hcon => haL hcon.1)]
      · have heq : markCorrect (a :: gs) (b :: ts) counts =
            (Verdict.absent :: (markCorrect gs ts counts).1,
             (markCorrect gs ts counts).2) := by
          simp [markCorrect, hab]
        rw [heq]
        dsimp only
        rw [corrCount_cons, exactMatches_cons, ih ts counts]
        rw [if_neg (fun hcon => nomatch hcon.2), if_neg (fun hcon => hab (hcon.1.trans hcon.2.symm))]

/-- The first pass marks nothing `present` (shared helper). -/
theorem presCount_markCorrect (g : List Char) (L : Char) :
    ∀ (t : List Char) (counts : Char → Int),
      presCount g (markCorrect g t counts).1 L = 0 := by
  induction g with
  | nil => intro t counts; cases t <;> simp [markCorrect, presCount]
  | cons a gs ih =>
    intro t counts
    cases t with
    | nil => simp [markCorrect, presCount]
    | cons b ts =>
      by_cases hab : a = b
      · subst hab
        have heq : markCorrect (a :: gs) (a :: ts) counts =
            (Verdict.correct :: (markCorrect gs ts (decCount counts a)).1,
             (markCorrect gs ts (decCount counts a)).2) := by
          simp [markCorrect]
        rw [heq]
        dsimp only
        rw [presCount_cons, ih ts (decCount counts a)]
        rw [if_neg (fun hcon => nomatch hcon.2)]
      · have heq : markCorrect (a :: gs) (b :: ts) counts =
            (Verdict.absent :: (markCorrect gs ts counts).1,
             (markCorrect gs ts counts).2) := by
          simp [markCorrect, hab]
        rw [heq]
        dsimp only
        rw [presCount_cons, ih ts counts]
        rw [if_neg (fun hcon => nomatch hcon.2)]

/-- The second pass preserves the `correct` positions (shared helper). -/
theorem corrCount_markPresent (gs : List Char) (L : Char) :
    ∀ (vs : List Verdict) (counts : Char → Int),
      corrCount gs (markPresent gs vs counts) L = corrCount gs vs L := by
  induction gs with
  | nil => intro vs counts; cases vs <;> simp [markPresent, corrCount]
  | cons g gs ih =>
    intro vs counts
    cases vs with
    | nil => simp [markPresent, corrCount]
    | cons v vs =>
      by_cases hcond : v = Verdict.absent ∧ counts g > 0
      · have heq : markPresent (g :: gs) (v :: vs) counts =
            Verdict.present :: markPresent gs vs (decCount counts g) := by
          simp [markPresent, hcond]
        rw [heq, corrCount_cons, corrCount_cons, ih vs (decCount counts g)]
        rw [if_neg (fun hcon => nomatch hcon.2),
          if_neg (fun hcon => nomatch hcond.1 ▸ hcon.2)]
      · have heq : markPresent (g :: gs) (v :: vs) counts =
            v :: markPresent gs vs counts := by
          simp only [markPresent, if_neg hcond]
        rw [heq, corrCount_cons, corrCount_cons, ih vs counts]

/-- The second pass creates at most `counts L` new `present` positions for
letter `L` (shared helper). -/
theorem presCount_markPresent (gs : List Char) (L : Char) :
    ∀ (vs : List Verdict) (counts : Char → Int),
      presCount gs (markPresent gs vs counts) L ≤ presCount gs vs L + (counts L).toNat := by
  induction gs with
  | nil => intro vs counts; cases vs <;> simp [markPresent, presCount]
  | cons g gs ih =>
    intro vs counts
    cases vs with
    | nil => simp [markPresent, presCount]
    | cons v vs =>
      by_cases hcond : v = Verdict.absent ∧ counts g > 0
      · have heq : markPresent (g :: gs) (v :: vs) counts =
            Verdict.present :: markPresent gs vs (decCount counts g) := by
          simp [markPresent, hcond]
        rw [heq, presCount_cons, presCount_cons]
        have hrec := ih vs (decCount counts g)
        by_cases hgL : g = L
        · subst hgL
          have hdec : decCount counts g g = counts g - 1 := by
            unfold decCount
            rw [if_pos rfl]
          rw [hdec] at hrec
          rw [if_pos ⟨rfl, rfl⟩, if_neg (fun hcon => nomatch hcond.1 ▸ hcon.2)]
          have hpos := hcond.2
          omega
        · have hdec : decCount counts g L = counts L := by
            unfold decCount
            rw [if_neg (fun hcon => hgL hcon.symm)]
          rw [hdec] at hrec
          rw [if_neg (fun hcon => hgL hcon.1), if_neg (fun hcon => hgL hcon.1)]
          omega
      · have heq : markPresent (g :: gs) (v :: vs) counts =
            v :: markPresent gs vs counts := by
          simp only [markPresent, if_neg hcond]
        rw [heq, presCount_cons, presCount_cons]
        have hrec := ih vs counts
        by_cases hh : g = L ∧ v = Verdict.present
        · rw [if_pos hh]
          omega
        · rw [if_neg hh]
          omega

/-- Every verdict produced by the first pass is `correct` or `absent`
(shared helper). -/
theorem markCorrect_entries (g : List Char) :
    ∀ (t : List Char) (counts : Char → Int) (k : Nat) (v : Verdict),
      (markCorrect g t counts).1.get? k = some v →
      v = Verdict.correct ∨ v = Verdict.absent := by
  induction g with
  | nil =>
    intro t counts k v h
    cases t <;> simp [markCorrect] at h
  | cons a gs ih =>
    intro t counts k v h
    cases t with
    | nil => simp [markCorrect] at h
    | cons b ts =>
      by_cases hab : a = b
      · subst hab
        have heq : markCorrect (a :: gs) (a :: ts) counts =
            (Verdict.correct :: (markCorrect gs ts (decCount counts a)).1,
             (markCorrect gs ts (decCount counts a)).2) := by
          simp [markCorrect]
        rw [heq] at h
        dsimp only at h
        cases k with
        | zero =>
          rw [List.get?_cons_zero] at h
          exact Or.inl (Option.some.inj h).symm
        | succ k =>
          rw [List.get?_cons_succ] at h
          exact ih ts (decCount counts a) k v h
      · have heq : markCorrect (a :: gs) (b :: ts) counts =
            (Verdict.absent :: (markCorrect gs ts counts).1,
             (markCorrect gs ts counts).2) := by
          simp [markCorrect, hab]
        rw [heq] at h
        dsimp only at h
        cases k with
        | zero =>
          rw [List.get?_cons_zero] at h
          exact Or.inr (Option.some.inj h).symm
        | succ k =>
          rw [List.get?_cons_succ] at h
          exact ih ts counts k v h

/-- The second pass keeps every `correct` position `correct` (shared
helper). -/
theorem markPresent_keeps_correct (gs : List Char) :
    ∀ (vs : List Verdict) (counts : Char → Int) (k : Nat), k < gs.length →
      vs.get? k = some Verdict.correct →
      (markPresent gs vs counts).get? k = some Verdict.correct := by
  induction gs with
  | nil =>
    intro vs counts k hk _
    simp at hk
  | cons g gs ih =>
    intro vs counts k hk hv
    cases vs with
    | nil => simp at hv
    | cons v vs =>
      cases k with
      | zero =>
        rw [List.get?_cons_zero] at hv
        obtain rfl : v = Verdict.correct := Option.some.inj hv
        have heq : markPresent (g :: gs) (Verdict.correct :: vs) counts =
            Verdict.correct :: markPresent gs vs counts := by
          simp [markPresent]
        rw [heq, List.get?_cons_zero]
      | succ k =>
        rw [List.get?_cons_succ] at hv
        have hk' : k < gs.length := by simpa using Nat.lt_of_succ_lt_succ hk
        by_cases hcond : v = Verdict.absent ∧ counts g > 0
        · have heq : markPresent (g :: gs) (v :: vs) counts =
              Verdict.present :: markPresent gs vs (decCount counts g) := by
            simp [markPresent, hcond]
          rw [heq, List.get?_cons_succ]
          exact ih vs (decCount counts g) k hk' hv
        · have heq : markPresent (g :: gs) (v :: vs) counts =
              v :: markPresent gs vs counts := by
            simp only [markPresent, if_neg hcond]
          rw [heq, List.get?_cons_succ]
          exact ih vs counts k hk' hv

/-- Once letter `L`'s remaining count is exhausted, every later `absent`
position holding `L` stays `absent` through the second pass (shared
helper). -/
theorem markPresent_absent_of_nonpos (gs : List Char) (L : Char) :
    ∀ (vs : List Verdict) (counts : Char → Int) (j : Nat), counts L ≤ 0 →
      gs.get? j = some L → vs.get? j = some Verdict.absent →
      (markPresent gs vs counts).get? j = some Verdict.absent := by
  induction gs with
  | nil => intro vs counts j _ hgj _; simp at hgj
  | cons g gs ih =>
    intro vs counts j hc hgj hvj
    cases vs with
    | nil => simp at hvj
    | cons v vs =>
      cases j with
      | zero =>
        rw [List.get?_cons_zero] at hgj hvj
        obtain rfl : g = L := Option.some.inj hgj
        obtain rfl : v = Verdict.absent := Option.some.inj hvj
        have hpos : ¬ counts g > 0 := by omega
        have heq : markPresent (g :: gs) (Verdict.absent :: vs) counts =
            Verdict.absent :: markPresent gs vs counts := by
          simp [markPresent, hpos]
        rw [heq, List.get?_cons_zero]
      | succ j =>
        rw [List.get?_cons_succ] at hgj hvj
        by_cases hcond : v = Verdict.absent ∧ counts g > 0
        · have heq : markPresent (g :: gs) (v :: vs) counts =
              Verdict.present :: markPresent gs vs (decCount counts g) := by
            simp [markPresent, hcond]
          rw [heq, List.get?_cons_succ]
          have hc' : decCount counts g L ≤ 0 := by
            unfold decCount
            by_cases hLg : L = g
            · rw [if_pos hLg]
              rw [hLg] at hc
              omega
            · rw [if_neg hLg]
              exact hc
          exact ih vs (decCount counts g) j hc' hgj hvj
        · have heq : markPresent (g :: gs) (v :: vs) counts =
              v :: markPresent gs vs counts := by
            simp only [markPresent, if_neg hcond]
          rw [heq, List.get?_cons_succ]
          exact ih vs counts j hc hgj hvj

/-- Left-to-right crediting: if an earlier `absent`-input position holding
`L` comes out `absent`, every later `absent`-input position holding `L`
also comes out `absent` (shared helper). -/
theorem markPresent_absent_mono (gs : List Char) (L : Char) :
    ∀ (vs : List Verdict) (counts : Char → Int) (i j : Nat), i < j →
      gs.get? i = some L → gs.get? j = some L →
      vs.get? i = some Verdict.absent → vs.get? j = some Verdict.absent →
      (markPresent gs vs counts).get? i = some Verdict.absent →
      (markPresent gs vs counts).get? j = some Verdict.absent := by
  induction gs with
  | nil => intro vs counts i j _ hgi _ _ _ _; simp at hgi
  | cons g gs ih =>
    intro vs counts i j hij hgi hgj hvi hvj houti
    cases vs with
    | nil => simp at hvi
    | cons v vs =>
      cases i with
      | zero =>
        rw [List.get?_cons_zero] at hgi hvi
        obtain rfl : g = L := Option.some.inj hgi
        obtain rfl : v = Verdict.absent := Option.some.inj hvi
        obtain ⟨j', rfl⟩ : ∃ j', j = j' + 1 := ⟨j - 1, by omega⟩
        rw [List.get?_cons_succ] at hgj hvj
        by_cases hpos : counts g > 0
        · exfalso
          have heq : markPresent (g :: gs) (Verdict.absent :: vs) counts =
              Verdict.present :: markPresent gs vs (decCount counts g) := by
            simp [markPresent, hpos]
          rw [heq, List.get?_cons_zero] at houti
          exact nomatch Option.some.inj houti
        · have heq : markPresent (g :: gs) (Verdict.absent :: vs) counts =
              Verdict.absent :: markPresent gs vs counts := by
            simp [markPresent, hpos]
          rw [heq, List.get?_cons_succ]
          exact markPresent_absent_of_nonpos gs g vs counts j' (by omega) hgj hvj
      | succ i =>
        obtain ⟨j', rfl⟩ : ∃ j', j = j' + 1 := ⟨j - 1, by omega⟩
        rw [List.get?_cons_succ] at hgi hgj hvi hvj
        by_cases hcond : v = Verdict.absent ∧ counts g > 0
        · have heq : markPresent (g :: gs) (v :: vs) counts =
              Verdict.present :: markPresent gs vs (decCount counts g) := by
            simp [markPresent, hcond]
          rw [heq, List.get?_cons_succ] at houti ⊢
          exact ih vs (decCount counts g) i j' (by omega) hgi hgj hvi hvj houti
        · have heq : markPresent (g :: gs) (v :: vs) counts =
              v :: markPresent gs vs counts := by
            simp only [markPresent, if_neg hcond]
          rw [heq, List.get?_cons_succ] at houti ⊢
          exact ih vs counts i j' (by omega) hgi hgj hvi hvj houti

/-- Length of the first pass's verdict list (shared helper). -/
theorem markCorrect_length (g : List Char) :
    ∀ (t : List Char) (counts : Char → Int),
      (markCorrect g t counts).1.length = min g.length t.length := by
  induction g with
  | nil => intro t counts; cases t <;> simp [markCorrect]
  | cons a gs ih =>
    intro t counts
    cases t with
    | nil => simp [markCorrect]
    | cons b ts =>
      by_cases hab : a = b
      · subst hab
        have heq : markCorrect (a :: gs) (a :: ts) counts =
            (Verdict.correct :: (markCorrect gs ts (decCount counts a)).1,
             (markCorrect gs ts (decCount counts a)).2) := by
          simp [markCorrect]
        rw [heq]
        dsimp only
        simp only [List.length_cons, ih ts (decCount counts a)]
        omega
      · have heq : markCorrect (a :: gs) (b :: ts) counts =
            (Verdict.absent :: (markCorrect gs ts counts).1,
             (markCorrect gs ts counts).2) := by
          simp [markCorrect, hab]
        rw [heq]
        dsimp only
        simp only [List.length_cons, ih ts counts]
        omega

/-- `C3`: for every 5-letter uppercase target and guess and every letter
`L`, the positions holding `L` credited `correct` or `present` number at
most `L`'s occurrences in the target; and `present` credit is awarded
left-to-right — if positions `i < j` both hold `L`, neither is an exact
match, and position `i` came out `absent`, then position `j` is `absent`
too. -/
theorem validateGuess_letter_budget (target guess : List Char)
    (htlen : target.length = 5) (hglen : guess.length = 5)
    (ht : ∀ c ∈ target, isUpperAZ c) (hg : ∀ c ∈ guess, isUpperAZ c) (L : Char) :
    creditedCount guess (validateGuess target guess) L ≤ target.count L ∧
    (∀ i j : Nat, i < j → guess.get? i = some L → guess.get? j = some L →
      (validateGuess target guess).get? i = some Verdict.absent →
      (validateGuess target guess).get? j ≠ some Verdict.correct →
      (validateGuess target guess).get? j = some Verdict.absent) := by
  have hvg : validateGuess target guess =
      markPresent guess (markCorrect guess target (initialCounts target)).1
        (markCorrect guess target (initialCounts target)).2 := by
    show markPresent (guess.map toUpperChar)
        (markCorrect (guess.map toUpperChar) (target.map toUpperChar)
          (initialCounts (target.map toUpperChar))).1
        (markCorrect (guess.map toUpperChar) (target.map toUpperChar)
          (initialCounts (target.map toUpperChar))).2 =
      markPresent guess (markCorrect guess target (initialCounts target)).1
        (markCorrect guess target (initialCounts target)).2
    rw [map_toUpperChar_of_upper target ht, map_toUpperChar_of_upper guess hg]
  constructor
  · have hsplit : creditedCount guess (validateGuess target guess) L ≤
        corrCount guess (validateGuess target guess) L +
        presCount guess (validateGuess target guess) L := by
      unfold creditedCount corrCount presCount
      apply countP_le_add_of_imp
      intro x hx
      simp only [decide_eq_true_eq] at hx ⊢
      rcases hx with ⟨h1, h2 | h3⟩
      · exact Or.inl ⟨h1, h2⟩
      · exact Or.inr ⟨h1, h3⟩
    have hcorr : corrCount guess (validateGuess target guess) L =
        exactMatches guess target L := by
      rw [hvg, corrCount_markPresent, corrCount_markCorrect]
    have hpres : presCount guess (validateGuess target guess) L ≤
        presCount guess (markCorrect guess target (initialCounts target)).1 L +
        ((markCorrect guess target (initialCounts target)).2 L).toNat := by
      rw [hvg]
      exact presCount_markPresent guess L _ _
    have hzero : presCount guess (markCorrect guess target (initialCounts target)).1 L = 0 :=
      presCount_markCorrect guess L target (initialCounts target)
    have hcnt : (markCorrect guess target (initialCounts target)).2 L =
        (target.count L : Int) - exactMatches guess target L :=
      markCorrect_counts guess L target (initialCounts target)
    have hexle : exactMatches guess target L ≤ target.count L :=
      exactMatches_le_count guess L target
    omega
  · intro i j hij hgi hgj houti houtj
    have hj : j < guess.length := by
      by_contra hcon
      rw [List.get?_eq_none.mpr (by omega)] at hgj
      exact nomatch hgj
    have hi : i < guess.length := by omega
    have hslen : (markCorrect guess target (initialCounts target)).1.length = guess.length := by
      rw [markCorrect_length guess target (initialCounts target), htlen, hglen]
      rfl
    have hjs : j < (markCorrect guess target (initialCounts target)).1.length := by omega
    have his : i < (markCorrect guess target (initialCounts target)).1.length := by omega
    have hsj := List.get?_eq_get hjs
    have hsi := List.get?_eq_get his
    rcases markCorrect_entries guess target (initialCounts target) j
        ((markCorrect guess target (initialCounts target)).1.get ⟨j, hjs⟩) hsj with hcj | haj
    · exfalso
      apply houtj
      rw [hvg]
      apply markPresent_keeps_correct guess _ _ j hj
      rw [hsj, hcj]
    · have hsja : (markCorrect guess target (initialCounts target)).1.get? j =
          some Verdict.absent := by
        rw [hsj, haj]
      rcases markCorrect_entries guess target (initialCounts target) i
          ((markCorrect guess target (initialCounts target)).1.get ⟨i, his⟩) hsi with hci | hai
      · exfalso
        have hcontra : (validateGuess target guess).get? i = some Verdict.correct := by
          rw [hvg]
          apply markPresent_keeps_correct guess _ _ i hi
          rw [hsi, hci]
        rw [houti] at hcontra
        exact nomatch Option.some.inj hcontra
      · have hsia : (markCorrect guess target (initialCounts target)).1.get? i =
            some Verdict.absent := by
          rw [hsi, hai]
        rw [hvg] at houti ⊢
        exact markPresent_absent_mono guess L
          (markCorrect guess target (initialCounts target)).1
          (markCorrect guess target (initialCounts target)).2
          i j hij hgi hgj hsia hsja houti

/-- `C3` witness: target `HELLO`, guess `LLAMA`, letter `L` — the two
`present` credits do not exceed the two `L`s in the target. -/
theorem validateGuess_letter_budget_witness :
    creditedCount "LLAMA".toList (validateGuess "HELLO".toList "LLAMA".toList) 'L' ≤
      ("HELLO".toList).count 'L' :=
  (validateGuess_letter_budget "HELLO".toList "LLAMA".toList (by decide) (by decide)
    (by decide) (by decide) 'L').1

/-- `C9` witness: submitting the winning word `WORLD` with the cursor at
column 5 leaves the cursor at row 0, column 5, and reports guess count 1. -/
theorem win_freezes_cursor_witness :
    (processKeyPress ["WORLD".toList]
      { startNewGame "WORLD".toList with currentCol := 5, rowLetters := "WORLD".toList }
      "ENTER").2.currentRow = 0 ∧
    (processKeyPress ["WORLD".toList]
      { startNewGame "WORLD".toList with currentCol := 5, rowLetters := "WORLD".toList }
      "ENTER").2.currentCol = 5 := by
  have h := (win_freezes_cursor ["WORLD".toList]
    { startNewGame "WORLD".toList with currentCol := 5, rowLetters := "WORLD".toList }).1
    0 ("WORLD".toList)
    [Verdict.correct, Verdict.correct, Verdict.correct, Verdict.correct, Verdict.correct]
    1 (by decide)
  exact ⟨h.1, h.2.2.2.2 (by decide)⟩

end WordUp
